import Mathlib

/-!
Shallow embedding of the xv6-derived block-buffer cache in `src/bio.c`
(binit, bget, iderw, bread, bwrite, brelse) together with proofs about it.

Modelling conventions:
* `NBUF = 3` and `BSIZE`, exactly as the source's `#define`s; the `data`
  payload array and the unused `qnext` field are omitted (no claim or line
  of the verified code ever reads or writes them).
* C `unsigned int` arithmetic is `Nat` with explicit `% 2 ^ 32` where the
  source performs arithmetic (`refcnt++`, `refcnt--`); `int` flag fields are
  `Int` (the source only ever stores `0`/`1` in them and compares with `1`).
* Pointers into the cache are the finite type `Ptr`: the null pointer, the
  address of the sentinel `bcache.head`, or the address of a pool slot
  `&bcache.buf[i]`.  Dereferencing `Ptr.null` is a crash: operations return
  `Option`, and `none` models both `__VERIFIER_error()` and an invalid
  dereference / non-termination of a pointer-chasing loop (both are
  "the call does not return normally").
* `ideCalls` is a ghost instrumentation counter, not a field of the C
  struct: it counts invocations of the device collaborator `iderw`, which
  is needed to state claims about when the device is (not) accessed.  No
  embedded operation reads it.
-/

namespace Bio

abbrev NBUF : Nat := 3

abbrev UINT_MOD : Nat := 2 ^ 32

/-- A pointer value occurring in the buffer cache: null, the sentinel
`&bcache.head`, or a pool slot `&bcache.buf[i]`. -/
inductive Ptr where
  | null : Ptr
  | head : Ptr
  | slot (i : Fin NBUF) : Ptr
deriving DecidableEq, Repr

instance : Fintype Ptr where
  elems := {Ptr.null, Ptr.head, Ptr.slot 0, Ptr.slot 1, Ptr.slot 2}
  complete := by
    intro x
    rcases x with _ | _ | i
    · simp
    · simp
    · fin_cases i <;> decide

/-- One `struct buf` of the source (minus the unmodelled `data`/`qnext`). -/
structure Buf where
  valid : Int
  dirty : Int
  dev : Nat
  blockno : Nat
  lock : Int
  refcnt : Nat
  prev : Ptr
  next : Ptr
deriving DecidableEq, Repr

/-- The global `bcache` struct: global lock flag, the `NBUF` slots, and the
sentinel `head` (a full `struct buf` in the source).  `ideCalls` is the ghost
device-invocation counter described in the header comment. -/
structure BCache where
  lock : Int
  bufs : Fin NBUF → Buf
  head : Buf
  ideCalls : Nat

/-- Write the slot `buf[i]`, transforming it with `f`. -/
def updSlot (s : BCache) (i : Fin NBUF) (f : Buf → Buf) : BCache :=
  { s with bufs := fun j => if j = i then f (s.bufs j) else s.bufs j }

/-- Read the `struct buf` a pointer refers to; dereferencing null fails. -/
def readBuf (s : BCache) : Ptr → Option Buf
  | Ptr.null => none
  | Ptr.head => some s.head
  | Ptr.slot i => some (s.bufs i)

/-- Write through a pointer, transforming the target `struct buf` with `f`;
writing through null fails. -/
def withPtr (s : BCache) : Ptr → (Buf → Buf) → Option BCache
  | Ptr.null, _ => none
  | Ptr.head, f => some { s with head := f s.head }
  | Ptr.slot i, f => some (updSlot s i f)

/-- The `next` field of the node `p` points to (junk at null; every embedded
operation that would dereference null fails before using this). -/
def nextOf (s : BCache) : Ptr → Ptr
  | Ptr.null => Ptr.null
  | Ptr.head => s.head.next
  | Ptr.slot i => (s.bufs i).next

/-- The `prev` field of the node `p` points to (junk at null). -/
def prevOf (s : BCache) : Ptr → Ptr
  | Ptr.null => Ptr.null
  | Ptr.head => s.head.prev
  | Ptr.slot i => (s.bufs i).prev

/-- One iteration of `binit`'s construction loop (src/bio.c:81-87):
`b->next = head.next; b->prev = &head; b->lock = 0;
head.next->prev = b; head.next = b;`. -/
def binitStep (s : BCache) (i : Fin NBUF) : Option BCache := do
  let s1 := updSlot s i fun b => { b with next := s.head.next, prev := Ptr.head, lock := 0 }
  let s2 ← withPtr s1 s1.head.next fun b => { b with prev := Ptr.slot i }
  return { s2 with head := { s2.head with next := Ptr.slot i } }

/-- `binit` (src/bio.c:71-125): clear the global lock, make the sentinel
self-linked, run the construction loop for `buf[0]`, `buf[1]`, `buf[2]`, then
run the source's own exhaustive link checks (failing ones `goto ERROR`). -/
def binit (s : BCache) : Option BCache := do
  let s0 := { s with lock := 0,
                     head := { s.head with prev := Ptr.head, next := Ptr.head } }
  let s1 ← binitStep s0 0
  let s2 ← binitStep s1 1
  let s3 ← binitStep s2 2
  if s3.head.next ≠ Ptr.slot 2 then none else
  if s3.head.prev ≠ Ptr.slot 0 then none else
  if (s3.bufs 0).next ≠ Ptr.head then none else
  if (s3.bufs 0).prev ≠ Ptr.slot 1 then none else
  if (s3.bufs 1).next ≠ Ptr.slot 0 then none else
  if (s3.bufs 1).prev ≠ Ptr.slot 2 then none else
  if (s3.bufs 2).next ≠ Ptr.slot 1 then none else
  if (s3.bufs 2).prev ≠ Ptr.head then none else
  return s3

/-- The hit scan of `bget` (src/bio.c:151-163): walk `next` pointers from
`head.next` until the sentinel, looking for a slot with matching address.
`some (some i)`: found slot `i`; `some none`: scan ended at the sentinel;
`none`: the walk dereferenced null or (fuel exhausted) cycled forever. -/
def findHit (s : BCache) (dev blockno : Nat) : Nat → Ptr → Option (Option (Fin NBUF))
  | 0, _ => none
  | _ + 1, Ptr.null => none
  | _ + 1, Ptr.head => some none
  | fuel + 1, Ptr.slot i =>
      if (s.bufs i).dev = dev ∧ (s.bufs i).blockno = blockno then some (some i)
      else findHit s dev blockno fuel (s.bufs i).next

/-- The recycling scan of `bget` (src/bio.c:168-184): walk `prev` pointers
from `head.prev` until the sentinel, looking for a slot with
`refcnt == 0 && dirty == 1` (the source's eligibility test). -/
def findFree (s : BCache) : Nat → Ptr → Option (Option (Fin NBUF))
  | 0, _ => none
  | _ + 1, Ptr.null => none
  | _ + 1, Ptr.head => some none
  | fuel + 1, Ptr.slot i =>
      if (s.bufs i).refcnt = 0 ∧ (s.bufs i).dirty = 1 then some (some i)
      else findFree s fuel (s.bufs i).prev

/-- `bget` (src/bio.c:139-190).  Returns `some (p, s')` when the function
returns normally (`p = Ptr.null` is the source's `return 0`, the "no free
slot" result), `none` for `__VERIFIER_error()`.  The source's `b.lock = 1`
(lines 160/181) is read as the evidently intended `b->lock = 1`.  Note that
on the `return 0` path `bcache.lock` is left set, exactly as in the source. -/
def bget (dev blockno : Nat) (s : BCache) : Option (Ptr × BCache) :=
  if s.lock = 1 then none
  else
    let s := { s with lock := 1 }
    match findHit s dev blockno (NBUF + 1) s.head.next with
    | none => none
    | some (some i) =>
        let s := updSlot s i fun b => { b with refcnt := (b.refcnt + 1) % UINT_MOD }
        if s.lock = 0 then none
        else
          let s := { s with lock := 0 }
          let s := updSlot s i fun b => { b with lock := 1 }
          some (Ptr.slot i, s)
    | some none =>
        match findFree s (NBUF + 1) s.head.prev with
        | none => none
        | some (some i) =>
            let s := updSlot s i fun b =>
              { b with dev := dev, blockno := blockno, dirty := 0, valid := 0, refcnt := 1 }
            if s.lock = 0 then none
            else
              let s := { s with lock := 0 }
              let s := updSlot s i fun b => { b with lock := 1 }
              some (Ptr.slot i, s)
        | some none => some (Ptr.null, s)

/-- The device collaborator `iderw` (src/bio.c:193-196): `b->valid = 1`.
Bumps the ghost invocation counter; crashes on a null argument. -/
def iderw (p : Ptr) (s : BCache) : Option BCache :=
  (withPtr s p fun b => { b with valid := 1 }).map
    fun s' => { s' with ideCalls := s'.ideCalls + 1 }

/-- `bread` (src/bio.c:204-230): `bget`, then an unconditional `iderw` (the
`if(b->valid != 1)` guard is commented out in the source), then the
`b->valid != 1` check. -/
def bread (dev blockno : Nat) (s : BCache) : Option (Ptr × BCache) := do
  let (b, s1) ← bget dev blockno s
  let s2 ← iderw b s1
  let bb ← readBuf s2 b
  if bb.valid ≠ 1 then none else return (b, s2)

/-- `bwrite` (src/bio.c:238-258): set `dirty`, check it, `iderw`, check
`valid`. -/
def bwrite (p : Ptr) (s : BCache) : Option BCache := do
  let s1 ← withPtr s p fun b => { b with dirty := 1 }
  let b1 ← readBuf s1 p
  if b1.dirty ≠ 1 then none else
  let s2 ← iderw p s1
  let b2 ← readBuf s2 p
  if b2.valid ≠ 1 then none else return s2

/-- The list splice of `brelse` (src/bio.c:286-291), statement by statement:
`b->next->prev = b->prev; b->prev->next = b->next; b->next = head.next;
b->prev = &head; head.next->prev = b; head.next = b;` with every pointer
read performed on the state current at that statement. -/
def splice (i : Fin NBUF) (s : BCache) : Option BCache := do
  let s1 ← withPtr s (s.bufs i).next fun b => { b with prev := (s.bufs i).prev }
  let s2 ← withPtr s1 (s1.bufs i).prev fun b => { b with next := (s1.bufs i).next }
  let s3 := updSlot s2 i fun b => { b with next := s2.head.next }
  let s4 := updSlot s3 i fun b => { b with prev := Ptr.head }
  let s5 ← withPtr s4 s4.head.next fun b => { b with prev := Ptr.slot i }
  return { s5 with head := { s5.head with next := Ptr.slot i } }

/-- `brelse` (src/bio.c:270-320) on `&bcache.buf[i]` (the callers of the
source pass pool slots): lock check, `refcnt--` (32-bit wrap), the MRU
splice when the count reached zero, the source's own MRU assertions, and
the release of the global lock.  The slot's own `lock` field is never
touched, exactly as in the source. -/
def brelse (i : Fin NBUF) (s : BCache) : Option BCache := do
  if s.lock = 1 then none else
  let s := { s with lock := 1 }
  let s := updSlot s i fun b => { b with refcnt := (b.refcnt + (UINT_MOD - 1)) % UINT_MOD }
  let mru := s.head.next
  let s ← if (s.bufs i).refcnt = 0 then splice i s else pure s
  let s ←
    if (s.bufs i).refcnt = 0 then
      if s.head.next ≠ Ptr.slot i then none else
      if (s.bufs i).prev ≠ Ptr.head then none else
      if (s.bufs i).next ≠ mru then none else do
      let mb ← readBuf s mru
      if mb.prev ≠ Ptr.slot i then none else pure s
    else pure s
  if s.lock = 0 then none else
  return { s with lock := 0 }

/-! ### The recency-list well-formedness invariant -/

/-- First node after the sentinel (the most-recently-used entry). -/
def mru1 (s : BCache) : Ptr := nextOf s Ptr.head

/-- Second node of the forward traversal. -/
def mru2 (s : BCache) : Ptr := nextOf s (mru1 s)

/-- Third node of the forward traversal. -/
def mru3 (s : BCache) : Ptr := nextOf s (mru2 s)

/-- The `k`-th node of the backward traversal: `lruAt s 0` is `head.prev`,
the least-recently-used entry. -/
def lruAt (s : BCache) : Nat → Ptr
  | 0 => prevOf s Ptr.head
  | k + 1 => prevOf s (lruAt s k)

/-- Well-formedness of the recency list: forward and backward links are
mutually consistent everywhere, and the traversal from the sentinel in each
direction passes through three pairwise distinct non-sentinel nodes (hence
all `NBUF` slots exactly once) before returning to the sentinel. -/
def wf (s : BCache) : Prop :=
  (∀ p : Ptr, prevOf s (nextOf s p) = p) ∧
  (∀ p : Ptr, nextOf s (prevOf s p) = p) ∧
  nextOf s (mru3 s) = Ptr.head ∧
  mru1 s ≠ Ptr.head ∧ mru2 s ≠ Ptr.head ∧ mru3 s ≠ Ptr.head ∧
  mru1 s ≠ mru2 s ∧ mru1 s ≠ mru3 s ∧ mru2 s ≠ mru3 s ∧
  prevOf s (lruAt s 2) = Ptr.head ∧
  lruAt s 0 ≠ Ptr.head ∧ lruAt s 1 ≠ Ptr.head ∧ lruAt s 2 ≠ Ptr.head ∧
  lruAt s 0 ≠ lruAt s 1 ∧ lruAt s 0 ≠ lruAt s 2 ∧ lruAt s 1 ≠ lruAt s 2

/-- The concrete layout of a well-formed list: the forward cycle is
`head → i1 → i2 → i3 → head` with matching back links. -/
def chainShape (s : BCache) (i1 i2 i3 : Fin NBUF) : Prop :=
  s.head.next = Ptr.slot i1 ∧ (s.bufs i1).next = Ptr.slot i2 ∧
  (s.bufs i2).next = Ptr.slot i3 ∧ (s.bufs i3).next = Ptr.head ∧
  s.head.prev = Ptr.slot i3 ∧ (s.bufs i3).prev = Ptr.slot i2 ∧
  (s.bufs i2).prev = Ptr.slot i1 ∧ (s.bufs i1).prev = Ptr.head

/-- Equality of all forward/backward links of two cache states. -/
def linksEq (s s' : BCache) : Prop :=
  s'.head.next = s.head.next ∧ s'.head.prev = s.head.prev ∧
  ∀ j, (s'.bufs j).next = (s.bufs j).next ∧ (s'.bufs j).prev = (s.bufs j).prev

/-- All fields of a slot other than its list links. -/
def dataOf (b : Buf) : Int × Int × Nat × Nat × Int × Nat :=
  (b.valid, b.dirty, b.dev, b.blockno, b.lock, b.refcnt)

/-! ### Concrete states used by counterexamples, code-bug evaluations and
witnesses -/

/-- A zero `struct buf`, as C zero-initializes the globals (`NULL` links). -/
def zeroBuf : Buf :=
  { valid := 0, dirty := 0, dev := 0, blockno := 0, lock := 0, refcnt := 0,
    prev := Ptr.null, next := Ptr.null }

/-- The zero-initialized global `bcache`, the state at entry to `main`. -/
def zeroState : BCache :=
  { lock := 0, bufs := fun _ => zeroBuf, head := zeroBuf, ideCalls := 0 }

/-- The cache right after `binit()` succeeds on the zero-initialized state. -/
def state0 : BCache := (binit zeroState).getD zeroState

/-- The saturated pool: every slot held (`refcnt = 1`). -/
def satState : BCache :=
  { state0 with bufs := fun j => { state0.bufs j with refcnt := 1 } }

/-- Post-init state with slot 1 marked dirty, so that slot 0 (the LRU end)
is clean-unreferenced and slot 1 is the first slot passing the source's
recycling test. -/
def wState : BCache :=
  { state0 with bufs := fun j =>
      if j = 1 then { state0.bufs 1 with dirty := 1 } else state0.bufs j }

/-- Post-init state with slot 1 (the middle of the recency list) held once. -/
def relState : BCache :=
  { state0 with bufs := fun j =>
      if j = 1 then { state0.bufs 1 with refcnt := 1 } else state0.bufs j }

/-- The state `brelse` on slot 1 of `relState` returns. -/
def relRes : BCache := (brelse 1 relState).getD relState

/-- Post-init state in which slot 2 (the MRU slot) is bound to address
`(10, 20)` with valid contents. -/
def c4State : BCache :=
  { state0 with bufs := fun j =>
      if j = 2 then { state0.bufs 2 with dev := 10, blockno := 20, valid := 1 }
      else state0.bufs j }

/-- The state `bread 10 20` of `c4State` returns. -/
def c4Res : BCache := ((bread 10 20 c4State).map Prod.snd).getD c4State

/-- The state `bget 10 20` of `c4State` returns (the cache-hit path). -/
def acqRes : BCache := ((bget 10 20 c4State).map Prod.snd).getD c4State

/-- Post-init state in which slot 0 is held once with its exclusive
content-access flag set. -/
def c5State : BCache :=
  { state0 with bufs := fun j =>
      if j = 0 then { state0.bufs 0 with lock := 1, refcnt := 1 } else state0.bufs j }

/-- The state `brelse` on slot 0 of `c5State` returns. -/
def c5Res : BCache := (brelse 0 c5State).getD c5State

/-- Post-init state in which slot 2 (the MRU slot) is bound to address
`(10, 20)` with its unsigned owners count at the 32-bit maximum. -/
def ovState : BCache :=
  { state0 with bufs := fun j =>
      if j = 2 then { state0.bufs 2 with dev := 10, blockno := 20, refcnt := UINT_MOD - 1 }
      else state0.bufs j }

/-- The state `bget 10 20` of `ovState` returns (the cache-hit path, whose
`refcnt++` wraps). -/
def ovRes : BCache := ((bget 10 20 ovState).map Prod.snd).getD ovState

instance (s : BCache) : Decidable (wf s) := by
  unfold wf
  infer_instance

/-! ### Basic lemmas about the state operations -/

@[simp]
lemma updSlot_bufs_self (s : BCache) (i : Fin NBUF) (f : Buf → Buf) :
    (updSlot s i f).bufs i = f (s.bufs i) := by
  simp [updSlot]

lemma updSlot_bufs_ne (s : BCache) (i j : Fin NBUF) (f : Buf → Buf) (h : j ≠ i) :
    (updSlot s i f).bufs j = s.bufs j := by
  simp [updSlot, h]

@[simp]
lemma updSlot_head (s : BCache) (i : Fin NBUF) (f : Buf → Buf) :
    (updSlot s i f).head = s.head := rfl

@[simp]
lemma updSlot_lock (s : BCache) (i : Fin NBUF) (f : Buf → Buf) :
    (updSlot s i f).lock = s.lock := rfl

@[simp]
lemma updSlot_ideCalls (s : BCache) (i : Fin NBUF) (f : Buf → Buf) :
    (updSlot s i f).ideCalls = s.ideCalls := rfl

lemma fin3_complete :
    ∀ i1 i2 i3 j : Fin NBUF, i1 ≠ i2 → i1 ≠ i3 → i2 ≠ i3 →
      j = i1 ∨ j = i2 ∨ j = i3 := by
  decide

lemma linksEq_refl (s : BCache) : linksEq s s := ⟨rfl, rfl, fun _ => ⟨rfl, rfl⟩⟩

lemma linksEq_trans {s1 s2 s3 : BCache} (h : linksEq s1 s2) (h' : linksEq s2 s3) :
    linksEq s1 s3 := by
  obtain ⟨a, b, c⟩ := h
  obtain ⟨a', b', c'⟩ := h'
  exact ⟨a'.trans a, b'.trans b,
    fun j => ⟨((c' j).1).trans (c j).1, ((c' j).2).trans (c j).2⟩⟩

lemma linksEq_nextOf {s s' : BCache} (h : linksEq s s') (p : Ptr) :
    nextOf s' p = nextOf s p := by
  rcases p with _ | _ | i
  · rfl
  · exact h.1
  · exact (h.2.2 i).1

lemma linksEq_prevOf {s s' : BCache} (h : linksEq s s') (p : Ptr) :
    prevOf s' p = prevOf s p := by
  rcases p with _ | _ | i
  · rfl
  · exact h.2.1
  · exact (h.2.2 i).2

lemma wf_of_linksEq {s s' : BCache} (h : linksEq s s') (hwf : wf s) : wf s' := by
  have hn : nextOf s' = nextOf s := funext (linksEq_nextOf h)
  have hp : prevOf s' = prevOf s := funext (linksEq_prevOf h)
  have hl : lruAt s' = lruAt s := by
    funext k
    induction k with
    | zero => simp [lruAt, hp]
    | succ k ih => simp [lruAt, hp, ih]
  simp only [wf, mru1, mru2, mru3, hn, hp, hl] at hwf ⊢
  exact hwf

lemma chainShape_of_linksEq {s s' : BCache} {i1 i2 i3 : Fin NBUF}
    (h : linksEq s s') (hc : chainShape s i1 i2 i3) : chainShape s' i1 i2 i3 := by
  obtain ⟨a, b, c⟩ := h
  obtain ⟨c1, c2, c3, c4, c5, c6, c7, c8⟩ := hc
  exact ⟨a.trans c1, (c i1).1.trans c2, (c i2).1.trans c3, (c i3).1.trans c4,
    b.trans c5, (c i3).2.trans c6, (c i2).2.trans c7, (c i1).2.trans c8⟩

lemma updSlot_linksEq (s : BCache) (i : Fin NBUF) (f : Buf → Buf)
    (hf : ∀ b, (f b).next = b.next ∧ (f b).prev = b.prev) :
    linksEq s (updSlot s i f) := by
  refine ⟨rfl, rfl, fun j => ?_⟩
  by_cases h : j = i
  · subst h
    simpa using hf (s.bufs j)
  · rw [updSlot_bufs_ne s i j f h]
    exact ⟨rfl, rfl⟩

lemma withPtr_linksEq {s s' : BCache} {p : Ptr} {f : Buf → Buf}
    (h : withPtr s p f = some s')
    (hf : ∀ b, (f b).next = b.next ∧ (f b).prev = b.prev) :
    linksEq s s' := by
  rcases p with _ | _ | i
  · exact absurd h (by simp [withPtr])
  · obtain rfl : ({ s with head := f s.head } : BCache) = s' := by
      simpa [withPtr] using h
    exact ⟨(hf s.head).1, (hf s.head).2, fun _ => ⟨rfl, rfl⟩⟩
  · obtain rfl : updSlot s i f = s' := by simpa [withPtr] using h
    exact updSlot_linksEq s i f hf

lemma updSlot_dataEq (s : BCache) (i : Fin NBUF) (f : Buf → Buf)
    (hf : ∀ b, dataOf (f b) = dataOf b) (j : Fin NBUF) :
    dataOf ((updSlot s i f).bufs j) = dataOf (s.bufs j) := by
  by_cases h : j = i
  · subst h
    simpa using hf (s.bufs j)
  · rw [updSlot_bufs_ne s i j f h]

lemma withPtr_dataEq {s s' : BCache} {p : Ptr} {f : Buf → Buf}
    (h : withPtr s p f = some s')
    (hf : ∀ b, dataOf (f b) = dataOf b) :
    s'.lock = s.lock ∧ s'.ideCalls = s.ideCalls ∧
      ∀ j, dataOf (s'.bufs j) = dataOf (s.bufs j) := by
  rcases p with _ | _ | i
  · exact absurd h (by simp [withPtr])
  · obtain rfl : ({ s with head := f s.head } : BCache) = s' := by
      simpa [withPtr] using h
    exact ⟨rfl, rfl, fun _ => rfl⟩
  · obtain rfl : updSlot s i f = s' := by simpa [withPtr] using h
    exact ⟨rfl, rfl, updSlot_dataEq s i f hf⟩

lemma lruAt_zero (s : BCache) : lruAt s 0 = prevOf s Ptr.head := rfl

lemma lruAt_one (s : BCache) : lruAt s 1 = prevOf s (prevOf s Ptr.head) := rfl

lemma lruAt_two (s : BCache) :
    lruAt s 2 = prevOf s (prevOf s (prevOf s Ptr.head)) := rfl

/-- A well-formed list has the concrete layout `head → i1 → i2 → i3 → head`
for three pairwise distinct slots. -/
lemma wf_shape {s : BCache} (hwf : wf s) :
    ∃ i1 i2 i3 : Fin NBUF, i1 ≠ i2 ∧ i1 ≠ i3 ∧ i2 ≠ i3 ∧ chainShape s i1 i2 i3 := by
  obtain ⟨h1, h2, h3, n1, n2, n3, e12, e13, e23, -, -, -, -, -, -, -⟩ := hwf
  have p1 : prevOf s (mru1 s) = Ptr.head := h1 Ptr.head
  have p2 : prevOf s (mru2 s) = mru1 s := h1 (mru1 s)
  have p3 : prevOf s (mru3 s) = mru2 s := h1 (mru2 s)
  have p4 : prevOf s Ptr.head = mru3 s := by
    have h := h1 (mru3 s)
    rw [h3] at h
    exact h
  obtain ⟨i1, hx1⟩ : ∃ i, mru1 s = Ptr.slot i := by
    rcases hm : mru1 s with _ | _ | i
    · rw [hm] at p1
      exact absurd p1 (by simp [prevOf])
    · exact absurd hm n1
    · exact ⟨i, rfl⟩
  obtain ⟨i2, hx2⟩ : ∃ i, mru2 s = Ptr.slot i := by
    rcases hm : mru2 s with _ | _ | i
    · rw [hm] at p2
      simp [prevOf] at p2
      exact absurd p2.symm (hx1 ▸ (by simp))
    · exact absurd hm n2
    · exact ⟨i, rfl⟩
  obtain ⟨i3, hx3⟩ : ∃ i, mru3 s = Ptr.slot i := by
    rcases hm : mru3 s with _ | _ | i
    · rw [hm] at p3
      simp [prevOf] at p3
      exact absurd p3.symm (hx2 ▸ (by simp))
    · exact absurd hm n3
    · exact ⟨i, rfl⟩
  refine ⟨i1, i2, i3, ?_, ?_, ?_, ?_, ?_, ?_, ?_, ?_, ?_, ?_, ?_⟩
  · simpa [hx1, hx2] using e12
  · simpa [hx1, hx3] using e13
  · simpa [hx2, hx3] using e23
  · simpa [mru1, nextOf] using hx1
  · have h := hx2
    rw [mru2, hx1] at h
    simpa [nextOf] using h
  · have h := hx3
    rw [mru3, hx2] at h
    simpa [nextOf] using h
  · rw [hx3] at h3
    simpa [nextOf] using h3
  · rw [hx3] at p4
    simpa [prevOf] using p4
  · rw [hx3, hx2] at p3
    simpa [prevOf] using p3
  · rw [hx2, hx1] at p2
    simpa [prevOf] using p2
  · rw [hx1] at p1
    simpa [prevOf] using p1

/-- Conversely, the concrete layout on distinct slots is well-formed. -/
lemma shape_wf {s : BCache} {i1 i2 i3 : Fin NBUF}
    (d12 : i1 ≠ i2) (d13 : i1 ≠ i3) (d23 : i2 ≠ i3)
    (hc : chainShape s i1 i2 i3) : wf s := by
  obtain ⟨c1, c2, c3, c4, c5, c6, c7, c8⟩ := hc
  have key : ∀ j : Fin NBUF, j = i1 ∨ j = i2 ∨ j = i3 := fun j =>
    fin3_complete i1 i2 i3 j d12 d13 d23
  refine ⟨?_, ?_, ?_, ?_, ?_, ?_, ?_, ?_, ?_, ?_, ?_, ?_, ?_, ?_, ?_, ?_⟩
  · intro p
    rcases p with _ | _ | j
    · rfl
    · simp [nextOf, prevOf, c1, c8]
    · rcases key j with rfl | rfl | rfl
      · simp [nextOf, prevOf, c2, c7]
      · simp [nextOf, prevOf, c3, c6]
      · simp [nextOf, prevOf, c4, c5]
  · intro p
    rcases p with _ | _ | j
    · rfl
    · simp [nextOf, prevOf, c5, c4]
    · rcases key j with rfl | rfl | rfl
      · simp [nextOf, prevOf, c8, c1]
      · simp [nextOf, prevOf, c7, c2]
      · simp [nextOf, prevOf, c6, c3]
  all_goals
    simp [mru1, mru2, mru3, lruAt_zero, lruAt_one, lruAt_two, nextOf, prevOf,
      c1, c2, c3, c4, c5, c6, c7, c8, d12, d13, d23,
      Ne.symm d12, Ne.symm d13, Ne.symm d23]

/-! ### The effect of the `brelse` splice on a well-formed layout -/

/-- Splicing the slot that is already most-recently-used leaves the links
unchanged. -/
lemma splice_front {s : BCache} {i1 i2 i3 : Fin NBUF}
    (d12 : i1 ≠ i2) (d13 : i1 ≠ i3) (d23 : i2 ≠ i3)
    (hc : chainShape s i1 i2 i3) :
    ∃ s', splice i1 s = some s' ∧ chainShape s' i1 i2 i3 := by
  obtain ⟨c1, c2, c3, c4, c5, c6, c7, c8⟩ := hc
  simp [splice, withPtr, updSlot, chainShape, c1, c2, c3, c4, c5, c6, c7, c8,
    d12, d13, d23, Ne.symm d12, Ne.symm d13, Ne.symm d23]

/-- Splicing the middle slot moves it to the front of the cycle. -/
lemma splice_mid {s : BCache} {i1 i2 i3 : Fin NBUF}
    (d12 : i1 ≠ i2) (d13 : i1 ≠ i3) (d23 : i2 ≠ i3)
    (hc : chainShape s i1 i2 i3) :
    ∃ s', splice i2 s = some s' ∧ chainShape s' i2 i1 i3 := by
  obtain ⟨c1, c2, c3, c4, c5, c6, c7, c8⟩ := hc
  simp [splice, withPtr, updSlot, chainShape, c1, c2, c3, c4, c5, c6, c7, c8,
    d12, d13, d23, Ne.symm d12, Ne.symm d13, Ne.symm d23]

/-- Splicing the least-recently-used slot moves it to the front of the
cycle. -/
lemma splice_back {s : BCache} {i1 i2 i3 : Fin NBUF}
    (d12 : i1 ≠ i2) (d13 : i1 ≠ i3) (d23 : i2 ≠ i3)
    (hc : chainShape s i1 i2 i3) :
    ∃ s', splice i3 s = some s' ∧ chainShape s' i3 i1 i2 := by
  obtain ⟨c1, c2, c3, c4, c5, c6, c7, c8⟩ := hc
  simp [splice, withPtr, updSlot, chainShape, c1, c2, c3, c4, c5, c6, c7, c8,
    d12, d13, d23, Ne.symm d12, Ne.symm d13, Ne.symm d23]

/-- The splice moves only `prev`/`next` fields: every slot's data fields and
the cache's lock and ghost counter are untouched. -/
lemma splice_dataEq {i : Fin NBUF} {s s' : BCache} (h : splice i s = some s') :
    s'.lock = s.lock ∧ s'.ideCalls = s.ideCalls ∧
      ∀ j, dataOf (s'.bufs j) = dataOf (s.bufs j) := by
  simp only [splice, bind, Option.bind_eq_some, pure, Option.some.injEq] at h
  obtain ⟨s1, hs1, s2, hs2, s5, hs5, hfin⟩ := h
  have d1 := withPtr_dataEq hs1 fun b => rfl
  have d2 := withPtr_dataEq hs2 fun b => rfl
  have d5 := withPtr_dataEq hs5 fun b => rfl
  subst hfin
  refine ⟨?_, ?_, fun j => ?_⟩
  · calc s5.lock = s2.lock := by simpa using d5.1
    _ = s1.lock := d2.1
    _ = s.lock := d1.1
  · calc s5.ideCalls = s2.ideCalls := by simpa using d5.2.1
    _ = s1.ideCalls := d2.2.1
    _ = s.ideCalls := d1.2.1
  · calc dataOf (s5.bufs j)
        = dataOf ((updSlot (updSlot s2 i fun b => { b with next := s2.head.next }) i
            fun b => { b with prev := Ptr.head }).bufs j) := d5.2.2 j
    _ = dataOf ((updSlot s2 i fun b => { b with next := s2.head.next }).bufs j) :=
        updSlot_dataEq (updSlot s2 i fun b => { b with next := s2.head.next }) i
          (fun b => { b with prev := Ptr.head }) (fun _ => rfl) j
    _ = dataOf (s2.bufs j) :=
        updSlot_dataEq s2 i (fun b => { b with next := s2.head.next }) (fun _ => rfl) j
    _ = dataOf (s1.bufs j) := d2.2.2 j
    _ = dataOf (s.bufs j) := d1.2.2 j

lemma dataOf_fields {b b' : Buf} (h : dataOf b = dataOf b') :
    b.valid = b'.valid ∧ b.dirty = b'.dirty ∧ b.dev = b'.dev ∧
      b.blockno = b'.blockno ∧ b.lock = b'.lock ∧ b.refcnt = b'.refcnt := by
  simpa [dataOf, Prod.ext_iff] using h

/-- `brelse` on a well-formed list when the decremented count reaches zero:
either the released slot was already most-recently-used and the source's own
`b->next != mru` assertion aborts the call, or the call returns with the slot
promoted to the front, the old front now its successor, and the list still
well-formed. -/
lemma brelse_zero {i : Fin NBUF} {s : BCache} (hwf : wf s) (hl : ¬ s.lock = 1)
    (h0 : ((s.bufs i).refcnt + (UINT_MOD - 1)) % UINT_MOD = 0) :
    (brelse i s = none ∧ s.head.next = Ptr.slot i) ∨
    (∃ s', brelse i s = some s' ∧ wf s' ∧ s'.head.next = Ptr.slot i ∧
      (s'.bufs i).next = s.head.next ∧ prevOf s' s.head.next = Ptr.slot i ∧
      (s'.bufs i).prev = Ptr.head ∧ s'.lock = 0 ∧ s.head.next ≠ Ptr.slot i) := by
  obtain ⟨i1, i2, i3, d12, d13, d23, hc⟩ := wf_shape hwf
  have hc2 : chainShape (updSlot { s with lock := 1 } i
      fun b => { b with refcnt := (b.refcnt + (UINT_MOD - 1)) % UINT_MOD }) i1 i2 i3 := by
    refine chainShape_of_linksEq ?_ hc
    exact linksEq_trans (⟨rfl, rfl, fun j => ⟨rfl, rfl⟩⟩ :
      linksEq s { s with lock := 1 }) (updSlot_linksEq _ _ _ fun b => ⟨rfl, rfl⟩)
  obtain ⟨b1, b2, b3, b4, b5, b6, b7, b8⟩ := hc
  rcases fin3_complete i1 i2 i3 i d12 d13 d23 with rfl | rfl | rfl
  · -- releasing the slot that is already most-recently-used: the source's
    -- own assertion b->next != mru fails, brelse aborts
    obtain ⟨s3, hsp, hc3⟩ := splice_front d12 d13 d23 hc2
    obtain ⟨-, -, hdata⟩ := splice_dataEq hsp
    obtain ⟨e1, e2, e3, e4, e5, e6, e7, e8⟩ := hc3
    have hrc3 : (s3.bufs i).refcnt = 0 := by
      have h := (dataOf_fields (hdata i)).2.2.2.2.2
      simp only [updSlot_bufs_self] at h
      simpa [h0] using h
    left
    refine ⟨?_, b1⟩
    simp [brelse, hl, bind, pure, h0, hsp, hrc3, e1, e2, e8, b1, readBuf,
      d12, Ne.symm d12]
  · obtain ⟨s3, hsp, hc3⟩ := splice_mid d12 d13 d23 hc2
    obtain ⟨hlock3, -, hdata⟩ := splice_dataEq hsp
    obtain ⟨e1, e2, e3, e4, e5, e6, e7, e8⟩ := hc3
    have hrc3 : (s3.bufs i).refcnt = 0 := by
      have h := (dataOf_fields (hdata i)).2.2.2.2.2
      simp only [updSlot_bufs_self] at h
      simpa [h0] using h
    have hl3 : ¬ s3.lock = 0 := by
      rw [hlock3]
      simp
    right
    refine ⟨{ s3 with lock := 0 }, ?_, ?_, e1, ?_, ?_, e8, rfl, ?_⟩
    · simp [brelse, hl, bind, pure, h0, hsp, hrc3, e1, e2, e7, e8, b1, readBuf, hl3]
    · refine wf_of_linksEq (⟨rfl, rfl, fun j => ⟨rfl, rfl⟩⟩ :
        linksEq s3 { s3 with lock := 0 }) ?_
      exact shape_wf (Ne.symm d12) d23 d13 ⟨e1, e2, e3, e4, e5, e6, e7, e8⟩
    · rw [e2, b1]
    · rw [b1]
      simpa [prevOf] using e7
    · rw [b1]
      simp [Ptr.slot.injEq, d12]
  · obtain ⟨s3, hsp, hc3⟩ := splice_back d12 d13 d23 hc2
    obtain ⟨hlock3, -, hdata⟩ := splice_dataEq hsp
    obtain ⟨e1, e2, e3, e4, e5, e6, e7, e8⟩ := hc3
    have hrc3 : (s3.bufs i).refcnt = 0 := by
      have h := (dataOf_fields (hdata i)).2.2.2.2.2
      simp only [updSlot_bufs_self] at h
      simpa [h0] using h
    have hl3 : ¬ s3.lock = 0 := by
      rw [hlock3]
      simp
    right
    refine ⟨{ s3 with lock := 0 }, ?_, ?_, e1, ?_, ?_, e8, rfl, ?_⟩
    · simp [brelse, hl, bind, pure, h0, hsp, hrc3, e1, e2, e7, e8, b1, readBuf, hl3]
    · refine wf_of_linksEq (⟨rfl, rfl, fun j => ⟨rfl, rfl⟩⟩ :
        linksEq s3 { s3 with lock := 0 }) ?_
      exact shape_wf (Ne.symm d13) (Ne.symm d23) d12 ⟨e1, e2, e3, e4, e5, e6, e7, e8⟩
    · rw [e2, b1]
    · rw [b1]
      simpa [prevOf] using e7
    · rw [b1]
      simp [Ptr.slot.injEq, d13]

/-- `brelse` when the decremented count is nonzero: the list is untouched,
only the released slot's `refcnt` changes, and the global lock is released. -/
lemma brelse_pos {i : Fin NBUF} {s : BCache} (hl : ¬ s.lock = 1)
    (h0 : ((s.bufs i).refcnt + (UINT_MOD - 1)) % UINT_MOD ≠ 0) :
    ∃ s', brelse i s = some s' ∧ linksEq s s' ∧
      (s'.bufs i).refcnt = ((s.bufs i).refcnt + (UINT_MOD - 1)) % UINT_MOD ∧
      (∀ j, j ≠ i → s'.bufs j = s.bufs j) ∧
      (s'.bufs i).lock = (s.bufs i).lock ∧
      s'.lock = 0 ∧ s'.head = s.head ∧ s'.ideCalls = s.ideCalls := by
  refine ⟨{ updSlot { s with lock := 1 } i
      fun b => { b with refcnt := (b.refcnt + (UINT_MOD - 1)) % UINT_MOD } with lock := 0 },
    ?_, ⟨rfl, rfl, fun j => ?_⟩, ?_, fun j hj => ?_, ?_, rfl, rfl, rfl⟩
  · simp [brelse, hl, h0, bind, pure]
  · by_cases hj : j = i
    · subst hj
      simp [updSlot]
    · simp [updSlot, hj]
  · simp [updSlot]
  · simp [updSlot, hj]
  · simp [updSlot]

/-! ### Facts about `bget` -/

/-- A successful hit scan really found a slot bound to the target address. -/
lemma findHit_found {s : BCache} {d bn : Nat} :
    ∀ {fuel : Nat} {p : Ptr} {k : Fin NBUF},
      findHit s d bn fuel p = some (some k) →
        (s.bufs k).dev = d ∧ (s.bufs k).blockno = bn := by
  intro fuel
  induction fuel with
  | zero =>
      intro p k h
      simp [findHit] at h
  | succ n ih =>
      intro p k h
      rcases p with _ | _ | j
      · simp [findHit] at h
      · simp [findHit] at h
      · rw [findHit] at h
        by_cases hc : (s.bufs j).dev = d ∧ (s.bufs j).blockno = bn
        · rw [if_pos hc] at h
          obtain rfl : j = k := by simpa using h
          exact hc
        · rw [if_neg hc] at h
          exact ih h

/-- `bget` never modifies any `prev`/`next` link, the sentinel, or the ghost
counter, on any path on which it returns. -/
lemma bget_frame {dev blockno : Nat} {s : BCache} {r : Ptr} {s' : BCache}
    (h : bget dev blockno s = some (r, s')) :
    linksEq s s' ∧ s'.head = s.head ∧ s'.ideCalls = s.ideCalls := by
  by_cases hl : s.lock = 1
  · rw [bget, if_pos hl] at h
    cases h
  · simp only [bget, if_neg hl] at h
    rcases hf : findHit { s with lock := 1 } dev blockno (NBUF + 1) s.head.next
      with _ | (_ | i)
    · rw [hf] at h
      cases h
    · rw [hf] at h
      rcases hg : findFree { s with lock := 1 } (NBUF + 1) s.head.prev with _ | (_ | i)
      · rw [hg] at h
        cases h
      · rw [hg] at h
        obtain ⟨-, rfl⟩ := Prod.mk.injEq .. ▸ Option.some.injEq .. ▸ h
        exact ⟨⟨rfl, rfl, fun j => ⟨rfl, rfl⟩⟩, rfl, rfl⟩
      · rw [hg] at h
        simp only [updSlot_lock] at h
        norm_num at h
        obtain ⟨-, rfl⟩ := h
        refine ⟨⟨rfl, rfl, fun j => ?_⟩, rfl, rfl⟩
        by_cases hj : j = i
        · subst hj
          simp [updSlot]
        · simp [updSlot, hj]
    · rw [hf] at h
      simp only [updSlot_lock] at h
      norm_num at h
      obtain ⟨-, rfl⟩ := h
      refine ⟨⟨rfl, rfl, fun j => ?_⟩, rfl, rfl⟩
      by_cases hj : j = i
      · subst hj
        simp [updSlot]
      · simp [updSlot, hj]

/-- When `bget` returns a slot, that slot is bound to the requested address
with a positive reference count (given that the hit path's 32-bit increment
does not overflow). -/
lemma bget_success {dev blockno : Nat} {s : BCache} {i : Fin NBUF} {s' : BCache}
    (h : bget dev blockno s = some (Ptr.slot i, s'))
    (hov : (s.bufs i).refcnt + 1 < UINT_MOD) :
    (s'.bufs i).dev = dev ∧ (s'.bufs i).blockno = blockno ∧ 1 ≤ (s'.bufs i).refcnt := by
  by_cases hl : s.lock = 1
  · rw [bget, if_pos hl] at h
    cases h
  · simp only [bget, if_neg hl] at h
    rcases hf : findHit { s with lock := 1 } dev blockno (NBUF + 1) s.head.next
      with _ | (_ | k)
    · rw [hf] at h
      cases h
    · rw [hf] at h
      rcases hg : findFree { s with lock := 1 } (NBUF + 1) s.head.prev with _ | (_ | k)
      · rw [hg] at h
        cases h
      · rw [hg] at h
        simp at h
      · rw [hg] at h
        simp only [updSlot_lock] at h
        norm_num at h
        obtain ⟨rfl, rfl⟩ := h
        simp [updSlot]
    · rw [hf] at h
      simp only [updSlot_lock] at h
      norm_num at h
      obtain ⟨rfl, rfl⟩ := h
      have hfound := findHit_found hf
      have hov' : (s.bufs k).refcnt + 1 < 4294967296 := hov
      refine ⟨by simp [updSlot]; exact hfound.1, by simp [updSlot]; exact hfound.2, ?_⟩
      simp [updSlot]
      omega

lemma findHit_step (s : BCache) (d bn fuel : Nat) (i : Fin NBUF) :
    findHit s d bn (fuel + 1) (Ptr.slot i) =
      if (s.bufs i).dev = d ∧ (s.bufs i).blockno = bn then some (some i)
      else findHit s d bn fuel (s.bufs i).next := rfl

lemma findHit_sentinel (s : BCache) (d bn fuel : Nat) :
    findHit s d bn (fuel + 1) Ptr.head = some none := rfl

lemma findFree_step (s : BCache) (fuel : Nat) (i : Fin NBUF) :
    findFree s (fuel + 1) (Ptr.slot i) =
      if (s.bufs i).refcnt = 0 ∧ (s.bufs i).dirty = 1 then some (some i)
      else findFree s fuel (s.bufs i).prev := rfl

lemma findFree_sentinel (s : BCache) (fuel : Nat) :
    findFree s (fuel + 1) Ptr.head = some none := rfl

/-- On a well-formed list with no slot bound to the target address, the hit
scan runs through all three slots and ends at the sentinel. -/
lemma findHit_miss_walk {s : BCache} {d bn : Nat} {i1 i2 i3 : Fin NBUF}
    (b1 : s.head.next = Ptr.slot i1) (b2 : (s.bufs i1).next = Ptr.slot i2)
    (b3 : (s.bufs i2).next = Ptr.slot i3) (b4 : (s.bufs i3).next = Ptr.head)
    (hm : ∀ k : Fin NBUF, ¬((s.bufs k).dev = d ∧ (s.bufs k).blockno = bn)) :
    findHit s d bn (NBUF + 1) s.head.next = some none := by
  rw [b1, findHit_step, if_neg (hm i1), b2]
  show findHit s d bn (2 + 1) (Ptr.slot i2) = some none
  rw [findHit_step, if_neg (hm i2), b3]
  show findHit s d bn (1 + 1) (Ptr.slot i3) = some none
  rw [findHit_step, if_neg (hm i3), b4]
  show findHit s d bn (0 + 1) Ptr.head = some none
  rw [findHit_sentinel]

/-- With no slot satisfying the source's recycling test, the backward scan
runs through all three slots and ends at the sentinel. -/
lemma findFree_none_walk {s : BCache} {i1 i2 i3 : Fin NBUF}
    (b5 : s.head.prev = Ptr.slot i3) (b6 : (s.bufs i3).prev = Ptr.slot i2)
    (b7 : (s.bufs i2).prev = Ptr.slot i1) (b8 : (s.bufs i1).prev = Ptr.head)
    (hfr : ∀ k : Fin NBUF, ¬((s.bufs k).refcnt = 0 ∧ (s.bufs k).dirty = 1)) :
    findFree s (NBUF + 1) s.head.prev = some none := by
  rw [b5, findFree_step, if_neg (hfr i3), b6]
  show findFree s (2 + 1) (Ptr.slot i2) = some none
  rw [findFree_step, if_neg (hfr i2), b7]
  show findFree s (1 + 1) (Ptr.slot i1) = some none
  rw [findFree_step, if_neg (hfr i1), b8]
  show findFree s (0 + 1) Ptr.head = some none
  rw [findFree_sentinel]

/-- `bget` on a saturated, fully held pool: both scans fail and the call
returns the source's `return 0`, with the global lock still set, exactly as
in the source. -/
lemma bget_saturated (dev blockno : Nat) (s : BCache)
    (hwf : wf s) (hl : ¬ s.lock = 1)
    (hmiss : ∀ k : Fin NBUF, ¬((s.bufs k).dev = dev ∧ (s.bufs k).blockno = blockno))
    (hheld : ∀ k : Fin NBUF, (s.bufs k).refcnt ≠ 0) :
    bget dev blockno s = some (Ptr.null, { s with lock := 1 }) := by
  obtain ⟨i1, i2, i3, d12, d13, d23, b1, b2, b3, b4, b5, b6, b7, b8⟩ := wf_shape hwf
  have hfh : findHit { s with lock := 1 } dev blockno (NBUF + 1) s.head.next = some none :=
    findHit_miss_walk b1 b2 b3 b4 hmiss
  have hff : findFree { s with lock := 1 } (NBUF + 1) s.head.prev = some none :=
    findFree_none_walk b5 b6 b7 b8 fun k hk => hheld k hk.1
  simp only [bget, if_neg hl]
  rw [hfh, hff]

/-- The miss path of `bget` on a well-formed, non-saturated cache: with no
hit, the first slot in least-recently-used order satisfying the source's
recycling test (`refcnt == 0 && dirty == 1`) is rebound to the target
address.  `m` is the position of slot `j` in the backward traversal and every
slot strictly closer to the LRU end fails the test. -/
lemma bget_recycle (dev blockno : Nat) (s : BCache) (m : Nat) (j : Fin NBUF)
    (hwf : wf s) (hl : ¬ s.lock = 1)
    (hmiss : ∀ k : Fin NBUF, ¬((s.bufs k).dev = dev ∧ (s.bufs k).blockno = blockno))
    (hj : lruAt s m = Ptr.slot j)
    (helig : (s.bufs j).refcnt = 0 ∧ (s.bufs j).dirty = 1)
    (hbefore : ∀ k : Nat, k < m → ∀ j' : Fin NBUF, lruAt s k = Ptr.slot j' →
      ¬((s.bufs j').refcnt = 0 ∧ (s.bufs j').dirty = 1)) :
    ∃ s', bget dev blockno s = some (Ptr.slot j, s') ∧
      (s'.bufs j).dev = dev ∧ (s'.bufs j).blockno = blockno ∧
      (s'.bufs j).valid = 0 ∧ (s'.bufs j).refcnt = 1 := by
  obtain ⟨i1, i2, i3, d12, d13, d23, b1, b2, b3, b4, b5, b6, b7, b8⟩ := wf_shape hwf
  have hfh : findHit { s with lock := 1 } dev blockno (NBUF + 1) s.head.next = some none :=
    findHit_miss_walk b1 b2 b3 b4 hmiss
  have l0 : lruAt s 0 = Ptr.slot i3 := by rw [lruAt_zero, prevOf, b5]
  have l1 : lruAt s 1 = Ptr.slot i2 := by rw [lruAt_one, prevOf, b5]; exact b6
  have hff : findFree { s with lock := 1 } (NBUF + 1) s.head.prev = some (some j) := by
    rcases fin3_complete i1 i2 i3 j d12 d13 d23 with rfl | rfl | rfl
    · -- j is the most-recently-used slot: the two slots behind it are ineligible
      have hm0 : m ≠ 0 := by
        intro h0
        rw [h0, l0] at hj
        simp only [Ptr.slot.injEq] at hj
        exact d13 hj.symm
      have hm1 : m ≠ 1 := by
        intro h1
        rw [h1, l1] at hj
        simp only [Ptr.slot.injEq] at hj
        exact d12 hj.symm
      have hn3 := hbefore 0 (by omega) i3 l0
      have hn2 := hbefore 1 (by omega) i2 l1
      rw [b5, findFree_step, if_neg hn3, b6]
      show findFree { s with lock := 1 } (2 + 1) (Ptr.slot i2) = some (some j)
      rw [findFree_step, if_neg hn2, b7]
      show findFree { s with lock := 1 } (1 + 1) (Ptr.slot j) = some (some j)
      rw [findFree_step, if_pos helig]
    · have hm0 : m ≠ 0 := by
        intro h0
        rw [h0, l0] at hj
        simp only [Ptr.slot.injEq] at hj
        exact d23 hj.symm
      have hn3 := hbefore 0 (by omega) i3 l0
      rw [b5, findFree_step, if_neg hn3, b6]
      show findFree { s with lock := 1 } (2 + 1) (Ptr.slot j) = some (some j)
      rw [findFree_step, if_pos helig]
    · rw [b5, findFree_step, if_pos helig]
  refine ⟨updSlot { updSlot { s with lock := 1 } j
      (fun b => { b with dev := dev, blockno := blockno, dirty := 0, valid := 0, refcnt := 1 })
      with lock := 0 } j (fun b => { b with lock := 1 }), ?_, ?_, ?_, ?_, ?_⟩
  · simp only [bget, if_neg hl]
    rw [hfh, hff]
    simp only [updSlot_lock]
    norm_num
  all_goals simp [updSlot]

/-! ### Frame lemmas for `iderw`, `bread`, `bwrite`, and `binit`'s result -/

/-- The device collaborator only touches `valid` and the ghost counter:
all list links survive. -/
lemma iderw_linksEq {p : Ptr} {s s' : BCache} (h : iderw p s = some s') :
    linksEq s s' := by
  rcases p with _ | _ | i
  · cases h
  · simp only [iderw, withPtr, Option.map_some'] at h
    injection h with h
    subst h
    exact ⟨rfl, rfl, fun j => ⟨rfl, rfl⟩⟩
  · simp only [iderw, withPtr, Option.map_some'] at h
    injection h with h
    subst h
    refine ⟨rfl, rfl, fun j => ?_⟩
    by_cases hj : j = i
    · subst hj
      simp [updSlot]
    · simp [updSlot, hj]

/-- `bread` never modifies any list link on any path on which it returns. -/
lemma bread_frame {d bn : Nat} {s : BCache} {r : Ptr} {s' : BCache}
    (h : bread d bn s = some (r, s')) : linksEq s s' := by
  simp only [bread, bind, Option.bind_eq_some, pure] at h
  obtain ⟨⟨b, s1⟩, hb, h⟩ := h
  obtain ⟨s2, hi, h⟩ := h
  obtain ⟨bb, -, h⟩ := h
  have hbs : linksEq s s1 := (bget_frame hb).1
  have his : linksEq s1 s2 := iderw_linksEq hi
  split at h
  · cases h
  · obtain ⟨-, rfl⟩ := Prod.mk.injEq .. ▸ Option.some.injEq .. ▸ h
    exact linksEq_trans hbs his

/-- `bwrite` never modifies any list link on any path on which it returns. -/
lemma bwrite_frame {p : Ptr} {s s' : BCache} (h : bwrite p s = some s') :
    linksEq s s' := by
  simp only [bwrite, bind, Option.bind_eq_some, pure] at h
  obtain ⟨s1, hw, h⟩ := h
  obtain ⟨b1, hr1, h⟩ := h
  split at h
  · cases h
  · simp only [bind, Option.bind_eq_some] at h
    obtain ⟨s2, hi, h⟩ := h
    obtain ⟨b2, hr2, h⟩ := h
    split at h
    · cases h
    · injection h with h
      subst h
      exact linksEq_trans (withPtr_linksEq hw fun b => ⟨rfl, rfl⟩) (iderw_linksEq hi)

/-- Whenever `binit` returns (its own link checks passed), the resulting
list is well-formed: the cycle is `head → buf[2] → buf[1] → buf[0] → head`. -/
lemma binit_wf {s s' : BCache} (h : binit s = some s') : wf s' := by
  have hs : s' = (binit s).getD s := by
    rw [h]
    rfl
  subst hs
  refine shape_wf (show (2 : Fin NBUF) ≠ 1 by decide) (show (2 : Fin NBUF) ≠ 0 by decide)
    (show (1 : Fin NBUF) ≠ 0 by decide) ?_
  exact ⟨rfl, rfl, rfl, rfl, rfl, rfl, rfl, rfl⟩

/-! ### The claims -/

/-- C1, counterexample: in the state right after initialization every slot is
clean and unreferenced; the least-recently-used slot `buf[0]` has
`owners = 0`, yet `Acquire(10, 20)` (whose hit scan finds nothing) does not
rebind it — the miss scan skips every clean slot and returns the null
"no free slot" result.  This refutes "rebinds the first slot whose owners
count is 0 (regardless of any other field of that slot)". -/
theorem C1_clean_slot_not_recycled :
    state0.head.prev = Ptr.slot 0 ∧ (state0.bufs 0).refcnt = 0 ∧
    (∀ k : Fin NBUF, ¬((state0.bufs k).dev = 10 ∧ (state0.bufs k).blockno = 20)) ∧
    bget 10 20 state0 = some (Ptr.null, { state0 with lock := 1 }) :=
  ⟨rfl, rfl, by decide, rfl⟩

/-- C1, as amended: for every Acquire whose hit scan finds no slot bound to
the target address, the miss path scans from the least-recently-used end
toward the most-recently-used end and rebinds the first slot whose owners
count is 0 and whose dirty flag is 1 (the source's eligibility test): it
sets the slot's device and block to the target, clears valid, and sets
owners to 1. -/
theorem C1_recycles_first_eligible (dev blockno : Nat) (s : BCache) (m : Nat)
    (j : Fin NBUF) (hwf : wf s) (hl : ¬ s.lock = 1)
    (hmiss : ∀ k : Fin NBUF, ¬((s.bufs k).dev = dev ∧ (s.bufs k).blockno = blockno))
    (hj : lruAt s m = Ptr.slot j)
    (helig : (s.bufs j).refcnt = 0 ∧ (s.bufs j).dirty = 1)
    (hbefore : ∀ k : Nat, k < m → ∀ j' : Fin NBUF, lruAt s k = Ptr.slot j' →
      ¬((s.bufs j').refcnt = 0 ∧ (s.bufs j').dirty = 1)) :
    ∃ s', bget dev blockno s = some (Ptr.slot j, s') ∧
      (s'.bufs j).dev = dev ∧ (s'.bufs j).blockno = blockno ∧
      (s'.bufs j).valid = 0 ∧ (s'.bufs j).refcnt = 1 :=
  bget_recycle dev blockno s m j hwf hl hmiss hj helig hbefore

/-- C1, witness: in `wState` slot 0 (the LRU end) is clean and slot 1 is the
first dirty unreferenced slot; `Acquire(10, 20)` rebinds slot 1. -/
theorem C1_recycles_first_eligible_run :
    ∃ s', bget 10 20 wState = some (Ptr.slot 1, s') ∧
      (s'.bufs 1).dev = 10 ∧ (s'.bufs 1).blockno = 20 ∧
      (s'.bufs 1).valid = 0 ∧ (s'.bufs 1).refcnt = 1 :=
  C1_recycles_first_eligible 10 20 wState 1 1 (by decide) (by decide) (by decide)
    (by decide) (by decide) (by decide)

/-- C2: whenever `Release` returns after the decremented owners count
reached zero, the released slot is the entry adjacent to the sentinel on the
most-recently-used side (`head.next` equals the slot), and the slot that was
most-recently-used immediately before the call is the released slot's
immediate successor with its back link pointing at the released slot. -/
theorem C2_release_promotes_to_mru (i : Fin NBUF) (s s' : BCache) (hwf : wf s)
    (h : brelse i s = some s')
    (h0 : ((s.bufs i).refcnt + (UINT_MOD - 1)) % UINT_MOD = 0) :
    s'.head.next = Ptr.slot i ∧ (s'.bufs i).next = s.head.next ∧
      prevOf s' s.head.next = Ptr.slot i := by
  have hl : ¬ s.lock = 1 := by
    intro hl
    simp [brelse, hl] at h
  rcases brelse_zero hwf hl h0 with ⟨hn, -⟩ | ⟨s2, hs, -, e1, e2, e3, -, -, -⟩
  · rw [hn] at h
    cases h
  · rw [hs] at h
    injection h with h
    subst h
    exact ⟨e1, e2, e3⟩

/-- C2, witness: releasing the middle slot of `relState` (held once) makes
it the most-recently-used entry, in front of the old one. -/
theorem C2_release_promotes_to_mru_run :
    relRes.head.next = Ptr.slot 1 ∧ (relRes.bufs 1).next = relState.head.next ∧
      prevOf relRes relState.head.next = Ptr.slot 1 :=
  C2_release_promotes_to_mru 1 relState relRes (by decide) (by rfl) (by decide)

/-- C3, counterexample: in `ovState` slot 2 is bound to `(10, 20)` with its
unsigned owners count at `2^32 - 1`; `Acquire(10, 20)` succeeds on the hit
path, but the 32-bit `refcnt++` wraps and the returned slot has
`owners = 0` — refuting the unconditional "the returned slot satisfies
`owners >= 1`". -/
theorem C3_hit_overflow_zero_owners :
    (ovState.bufs 2).refcnt = UINT_MOD - 1 ∧
    bget 10 20 ovState = some (Ptr.slot 2, ovRes) ∧ (ovRes.bufs 2).refcnt = 0 :=
  ⟨rfl, rfl, rfl⟩

/-- C3, as amended: whenever `Acquire(dev, blockno)` returns a (non-null)
slot — on the hit path as well as on the rebind path — that slot satisfies
`dev = dev`, `blockno = blockno` and `owners ≥ 1`, provided the slot's
owners count before the call is below `2^32 - 1`, so that the hit path's
unsigned 32-bit increment does not wrap. -/
theorem C3_acquired_slot_is_bound (dev blockno : Nat) (s : BCache) (i : Fin NBUF)
    (s' : BCache) (hov : (s.bufs i).refcnt + 1 < UINT_MOD)
    (h : bget dev blockno s = some (Ptr.slot i, s')) :
    (s'.bufs i).dev = dev ∧ (s'.bufs i).blockno = blockno ∧ 1 ≤ (s'.bufs i).refcnt :=
  bget_success h hov

/-- C3, witness: the cache-hit acquisition of `(10, 20)` in `c4State`
returns slot 2 bound to the address with one owner. -/
theorem C3_acquired_slot_is_bound_run :
    (acqRes.bufs 2).dev = 10 ∧ (acqRes.bufs 2).blockno = 20 ∧
      1 ≤ (acqRes.bufs 2).refcnt :=
  C3_acquired_slot_is_bound 10 20 c4State 2 acqRes (by decide) (by rfl)

/-- C4, code-bug evaluation: in `c4State` the slot `Acquire` returns on the
hit path already has `valid = 1`, yet `bread` still invokes the device
collaborator — the ghost invocation counter increases by one — because the
`if(b->valid != 1)` guard around `iderw` is commented out in the source
(src/bio.c:217-220).  (The success half of the claim does hold: the returned
slot has `valid = 1`.) -/
theorem C4_read_calls_device_despite_valid :
    (c4State.bufs 2).valid = 1 ∧
    bget 10 20 c4State = some (Ptr.slot 2, acqRes) ∧
    bread 10 20 c4State = some (Ptr.slot 2, c4Res) ∧
    c4Res.ideCalls = c4State.ideCalls + 1 ∧ (c4Res.bufs 2).valid = 1 :=
  ⟨rfl, rfl, rfl, rfl, rfl⟩

/-- C5, code-bug evaluation: releasing slot 0 of `c5State` (held once, with
its exclusive content-access flag set) clears the global pool lock but
leaves the slot's exclusive flag set: the source's `brelse` never touches
`b->lock`. -/
theorem C5_release_leaves_exclusive_flag :
    (c5State.bufs 0).lock = 1 ∧ brelse 0 c5State = some c5Res ∧
    c5Res.lock = 0 ∧ (c5Res.bufs 0).lock = 1 :=
  ⟨rfl, rfl, rfl, rfl⟩

/-- C6: initialization establishes the list invariant `wf` — the sentinel
cycle visits the three pairwise-distinct slots exactly once in each
direction with mutually consistent forward/backward links — and every
operation that returns preserves it. -/
theorem C6_list_always_wellformed :
    (∀ s s' : BCache, binit s = some s' → wf s') ∧
    (∀ (dev blockno : Nat) (s : BCache) (r : Ptr) (s' : BCache),
        wf s → bget dev blockno s = some (r, s') → wf s') ∧
    (∀ (dev blockno : Nat) (s : BCache) (r : Ptr) (s' : BCache),
        wf s → bread dev blockno s = some (r, s') → wf s') ∧
    (∀ (p : Ptr) (s s' : BCache), wf s → bwrite p s = some s' → wf s') ∧
    (∀ (i : Fin NBUF) (s s' : BCache), wf s → brelse i s = some s' → wf s') := by
  refine ⟨fun s s' h => binit_wf h,
    fun dev bn s r s' hwf h => wf_of_linksEq (bget_frame h).1 hwf,
    fun dev bn s r s' hwf h => wf_of_linksEq (bread_frame h) hwf,
    fun p s s' hwf h => wf_of_linksEq (bwrite_frame h) hwf,
    fun i s s' hwf h => ?_⟩
  have hl : ¬ s.lock = 1 := by
    intro hl
    simp [brelse, hl] at h
  by_cases h0 : ((s.bufs i).refcnt + (UINT_MOD - 1)) % UINT_MOD = 0
  · rcases brelse_zero hwf hl h0 with ⟨hn, -⟩ | ⟨s2, hs, hswf, -, -, -, -, -, -⟩
    · rw [hn] at h
      cases h
    · rw [hs] at h
      injection h with h
      subst h
      exact hswf
  · obtain ⟨s2, hs, hlinks, -, -, -, -, -, -⟩ := brelse_pos hl h0
    rw [hs] at h
    injection h with h
    subst h
    exact wf_of_linksEq hlinks hwf

/-- C6, witness: initialization of the zeroed cache yields a well-formed
list. -/
theorem C6_list_always_wellformed_run : wf state0 :=
  C6_list_always_wellformed.1 zeroState state0 (by rfl)

/-- C7: on a fully held pool with the target address not resident, `Acquire`
returns the null "no free slot" value — a result distinct from every
successful lookup — rather than taking the fatal error path (which would be
`none` in this embedding); the global lock is left set, as in the source. -/
theorem C7_saturation_returns_no_free_slot (dev blockno : Nat) (s : BCache)
    (hwf : wf s) (hl : ¬ s.lock = 1)
    (hmiss : ∀ k : Fin NBUF, ¬((s.bufs k).dev = dev ∧ (s.bufs k).blockno = blockno))
    (hheld : ∀ k : Fin NBUF, (s.bufs k).refcnt ≠ 0) :
    bget dev blockno s = some (Ptr.null, { s with lock := 1 }) :=
  bget_saturated dev blockno s hwf hl hmiss hheld

/-- C7, witness: with all three slots held, acquiring the non-resident
address `(30, 50)` returns null, not a fault. -/
theorem C7_saturation_returns_no_free_slot_run :
    bget 30 50 satState = some (Ptr.null, { satState with lock := 1 }) :=
  C7_saturation_returns_no_free_slot 30 50 satState (by decide) (by decide)
    (by decide) (by decide)

/-- C8: `bread` does not handle the null "no free slot" result of `bget`: it
passes the null slot straight to `iderw`, whose dereference faults, so
whenever `bget` returns null, `bread` reaches the embedding's partiality
branch; the situation is reachable from the saturated pool `satState`. -/
theorem C8_read_faults_on_saturation :
    (∀ (dev blockno : Nat) (s s1 : BCache),
        bget dev blockno s = some (Ptr.null, s1) → bread dev blockno s = none) ∧
    bget 10 20 satState = some (Ptr.null, { satState with lock := 1 }) ∧
    bread 10 20 satState = none := by
  refine ⟨?_, by rfl, by rfl⟩
  intro dev bn s s1 h
  simp [bread, bind, h, iderw, withPtr]

/-- C8, witness: reading the non-resident address `(30, 50)` from the
saturated pool faults. -/
theorem C8_read_faults_on_saturation_run : bread 30 50 satState = none :=
  C8_read_faults_on_saturation.1 30 50 satState { satState with lock := 1 } (by rfl)

/-- C9: `Release` on a slot whose owners count is already 0 wraps the
unsigned 32-bit decrement to `2^32 - 1`; the nonzero result means the slot
is not promoted (all links, the sentinel included, are unchanged), no fault
is raised, and the call returns with the global lock released. -/
theorem C9_release_underflows_refcnt (i : Fin NBUF) (s : BCache)
    (hl : ¬ s.lock = 1) (h0 : (s.bufs i).refcnt = 0) :
    ∃ s', brelse i s = some s' ∧ (s'.bufs i).refcnt = UINT_MOD - 1 ∧
      linksEq s s' ∧ s'.head = s.head ∧ s'.lock = 0 := by
  have h0' : ((s.bufs i).refcnt + (UINT_MOD - 1)) % UINT_MOD ≠ 0 := by
    rw [h0]
    decide
  obtain ⟨s', hs, hlinks, hrc, -, -, hlock0, hhead, -⟩ := brelse_pos hl h0'
  refine ⟨s', hs, ?_, hlinks, hhead, hlock0⟩
  rw [hrc, h0]
  decide

/-- C9, witness: releasing the unreferenced slot 0 right after
initialization wraps its owners count to `2^32 - 1` and moves nothing. -/
theorem C9_release_underflows_refcnt_run :
    ∃ s', brelse 0 state0 = some s' ∧ (s'.bufs 0).refcnt = UINT_MOD - 1 ∧
      linksEq state0 s' ∧ s'.head = state0.head ∧ s'.lock = 0 :=
  C9_release_underflows_refcnt 0 state0 (by decide) (by rfl)

/-- C10: `Acquire` never modifies any slot's `prev`/`next` links or the
sentinel's links, on the hit path as well as on the rebind path, and neither
do `Read` or `Write`; among the operations, only initialization and
`Release` splice the ordering list. -/
theorem C10_only_init_and_release_move_links :
    (∀ (dev blockno : Nat) (s : BCache) (r : Ptr) (s' : BCache),
        bget dev blockno s = some (r, s') → linksEq s s') ∧
    (∀ (dev blockno : Nat) (s : BCache) (r : Ptr) (s' : BCache),
        bread dev blockno s = some (r, s') → linksEq s s') ∧
    (∀ (p : Ptr) (s s' : BCache), bwrite p s = some s' → linksEq s s') :=
  ⟨fun _ _ _ _ _ h => (bget_frame h).1,
   fun _ _ _ _ _ h => bread_frame h,
   fun _ _ _ h => bwrite_frame h⟩

/-- C10, witness: the hit-path acquisition in `c4State` leaves every link
unchanged. -/
theorem C10_only_init_and_release_move_links_run : linksEq c4State acqRes :=
  C10_only_init_and_release_move_links.1 10 20 c4State (Ptr.slot 2) acqRes (by rfl)

end Bio
